import Mathlib

/-
Verification development for the auto_infer repository.

The definitions below are shallow embeddings of the Python sources:
  - generate_bug_report.py   (extract_method_name, get_method_code,
                              convert_json_to_json, process_all_projects)
  - infer_analyzer.py        (InferAnalyzer.run_infer with its stale-artifact
                              cleanup loop, build dispatch, artifact check and
                              report-regeneration loop; InferAnalyzer.get_method_code)
  - batch_infer_analyzer.py  (BatchInferAnalyzer.analyze_project,
                              BatchInferAnalyzer.detect_java_version,
                              BatchInferAnalyzer.find_java_projects,
                              BatchInferAnalyzer.get_method_code)

File-system and subprocess effects are modelled by explicit oracle parameters
(file contents, per-attempt success/failure of deletions and of report
generation, process exit codes); machine integers are Int/Nat.
-/

namespace AutoInfer

/-! ## Character and string utilities -/

/-- The character U+007B (left curly brace). -/
def lbrace : Char := Char.ofNat 123

/-- The character U+007D (right curly brace). -/
def rbrace : Char := Char.ofNat 125

/-- The character U+0027 (single quote). -/
def squote : Char := Char.ofNat 39

/-- The character U+0022 (double quote). -/
def dquote : Char := Char.ofNat 34

/-- The character U+002F (forward slash). -/
def slash : Char := Char.ofNat 47

/-- Boolean test that the list `a` leads (is a prefix of) the list `b`.
Model of Python `str.startswith` over the characters of a string. -/
def strLead : List Char → List Char → Bool
  | [], _ => true
  | _ :: _, [] => false
  | x :: xs, y :: ys => x == y && strLead xs ys

/-- Boolean substring test: model of Python `needle in haystack` on strings. -/
def containsSub (n : List Char) : List Char → Bool
  | [] => n.isEmpty
  | c :: rest => strLead n (c :: rest) || containsSub n rest

/-- Python `pat in hay` for strings. -/
def strContains (hay pat : String) : Bool := containsSub pat.toList hay.toList

/-- Python `s.split(sep)` for a one-character separator, over character
lists (the result list is never empty). -/
def splitChar (sep : Char) : List Char → List (List Char)
  | [] => [[]]
  | c :: rest =>
    match splitChar sep rest with
    | [] => [[]]
    | h :: t => if c = sep then [] :: h :: t else (c :: h) :: t

/-- Python `s.lower()` (ASCII model, per-character lowering). -/
def strLower (s : String) : List Char := s.toList.map Char.toLower

/-- Python `s.count(c)` for a single character. -/
def countChar (c : Char) (s : String) : Nat :=
  s.toList.foldl (fun n x => if x = c then n + 1 else n) 0

/-- The per-line brace balance `line.count('{') - line.count('}')` used by all
`get_method_code` variants. -/
def braceBal (line : String) : Int :=
  (countChar lbrace line : Int) - (countChar rbrace line : Int)

/-- Python `max()` over a list of naturals: `none` models the `ValueError`
raised on an empty sequence. -/
def pyMax : List Nat → Option Nat
  | [] => none
  | x :: xs => some (xs.foldl max x)

/-! ## generate_bug_report.py: extract_method_name (lines 9-20) -/

/-- Embedding of `extract_method_name`: take the part before the first `(`
(`procedure.split('(')[0]`), then the last dot-delimited segment
(`.split('.')[-1]`). -/
def extract_method_name (procedure : String) : String :=
  if procedure = "" then ""
  else
    String.mk
      ((splitChar (Char.ofNat 46)
          ((splitChar (Char.ofNat 40) procedure.toList).headD [])).getLastD [])

/-! ## generate_bug_report.py: get_method_code (lines 57-105) -/

/-- The method-info dictionary returned by `generate_bug_report.get_method_code`
on success: `code` (the collected lines), 1-based `start_line` and `end_line`,
and the echoed `bug_line`. -/
structure MethodInfo where
  code : List String
  start_line : Nat
  end_line : Nat
  bug_line : Nat
deriving DecidableEq

/-- Result of `generate_bug_report.get_method_code`: the three error strings
the source can return, or the success dictionary. -/
inductive GbrResult where
  | fileNotFound : GbrResult
  | methodNotFound : GbrResult
  | bugLineOutside (bugLine startIdx endIdx : Nat) : GbrResult
  | found (info : MethodInfo) : GbrResult
deriving DecidableEq

/-- The forward declaration search of `generate_bug_report.get_method_code`
(lines 69-73): the loop `for i in range(len(lines))` stopping at the first
line that contains the method name and a left parenthesis. -/
def findDeclFrom (name : String) : List String → Nat → Option Nat
  | [], _ => none
  | l :: rest, i =>
    if strContains l name && strContains l "(" then some i
    else findDeclFrom name rest (i + 1)

/-- The forward brace-balance scan shared by the `get_method_code` variants:
starting at index `i` with running balance `bal`, return the first index
strictly greater than `s` at which the cumulative balance is zero. -/
def findEndAux (s : Nat) : List String → Nat → Int → Option Nat
  | [], _, _ => none
  | l :: rest, i, bal =>
    let b := bal + braceBal l
    if b = 0 ∧ s < i then some i else findEndAux s rest (i + 1) b

/-- The 0-based end index computed by `generate_bug_report.get_method_code`
(lines 79-91): `end_line` is initialised to the declaration index and is only
moved if the balance returns to zero on a later line. -/
def gbrEndIdx (lines : List String) (s : Nat) : Nat :=
  (findEndAux s (lines.drop s) s 0).getD s

/-- The lines collected into `method_code` by
`generate_bug_report.get_method_code` (lines 79-91). -/
def gbrCode (lines : List String) (s : Nat) : List String :=
  match findEndAux s (lines.drop s) s 0 with
  | some e => (lines.drop s).take (e - s + 1)
  | none => lines.drop s

/-- Embedding of `generate_bug_report.get_method_code`. `fileExists` models
`os.path.exists(file_path)`, `lines` the file contents, `bug_line` the raw
(1-based) reported line. Note that the range check at line 94 compares the
1-based `bug_line` with the 0-based indices `start_line`/`end_line`, while the
returned dictionary holds the indices converted to 1-based. -/
def get_method_code (fileExists : Bool) (lines : List String)
    (method_name : String) (bug_line : Nat) : GbrResult :=
  if fileExists = false then .fileNotFound
  else
    match findDeclFrom method_name lines 0 with
    | none => .methodNotFound
    | some s =>
      let e := gbrEndIdx lines s
      if bug_line < s ∨ e < bug_line then .bugLineOutside bug_line s e
      else .found ⟨gbrCode lines s, s + 1, e + 1, bug_line⟩

/-! ## generate_bug_report.py: convert_json_to_json (lines 107-224) -/

/-- A raw finding from the analyzer report, as read by
`convert_json_to_json`: the trace is the list of `(line_number, description)`
pairs produced by `get_bug_trace`. -/
structure Finding where
  file : String
  procedure : String
  line : Nat
  bug_type : String
  qualifier : String
  severity : String
  bug_trace : List (Nat × String)
deriving DecidableEq

/-- A processed bug record, as assembled at lines 191-206 of
generate_bug_report.py. -/
structure BugRecord where
  project : String
  bug_id : String
  file : String
  method : String
  bug_type : String
  description : String
  line_number : Nat
  method_start_line : Nat
  method_end_line : Nat
  bug_start_line : Nat
  bug_end_line : Nat
  severity : String
  method_code : List String
  bug_trace : List (Nat × String)
deriving DecidableEq

/-- The `bug_end` computation of `convert_json_to_json` (lines 184-189):
when the trace is non-empty, `max(line for line in trace_lines if line <=
method_end)`; `none` models the `ValueError` Python raises when the filtered
generator is empty (every trace line exceeds `method_end`). -/
def calcBugEnd (bug_start : Nat) (trace_lines : List Nat) (method_end : Nat) :
    Option Nat :=
  match trace_lines with
  | [] => some bug_start
  | t :: ts => pyMax ((t :: ts).filter (fun x => decide (x ≤ method_end)))

/-- The `get_method_code` call made for one finding inside
`convert_json_to_json` (lines 160-168). `fs` maps a file path to its lines
(`none` when the file does not exist). -/
def locateFinding (fs : String → Option (List String)) (b : Finding) :
    GbrResult :=
  get_method_code (fs b.file).isSome ((fs b.file).getD [])
    (extract_method_name b.procedure) b.line

/-- The per-bug loop of `convert_json_to_json` (lines 152-207): findings in
test files are skipped, findings whose `get_method_code` returns an error
string are skipped with a warning, and a success appends a record whose
`bug_id` is numbered by the count of records produced so far. `none` models
the exception propagating out of the loop (caught at line 222, so the whole
project conversion returns `False` and produces no output). -/
def convertBugs (projectName : String) (fs : String → Option (List String)) :
    List Finding → List BugRecord → Option (List BugRecord)
  | [], acc => some acc
  | b :: rest, acc =>
    if containsSub "test".toList (strLower b.file) then
      convertBugs projectName fs rest acc
    else
      match locateFinding fs b with
      | .found info =>
        match calcBugEnd b.line (b.bug_trace.map Prod.fst) info.end_line with
        | none => none
        | some bugEnd =>
          convertBugs projectName fs rest
            (acc ++ [{ project := projectName
                       bug_id := projectName ++ "-" ++ toString (acc.length + 1)
                       file := b.file
                       method := extract_method_name b.procedure
                       bug_type := b.bug_type
                       description := b.qualifier
                       line_number := b.line
                       method_start_line := info.start_line
                       method_end_line := info.end_line
                       bug_start_line := b.line
                       bug_end_line := bugEnd
                       severity := b.severity
                       method_code := info.code
                       bug_trace := b.bug_trace }])
      | _ => convertBugs projectName fs rest acc

/-! ## infer_analyzer.py / batch_infer_analyzer.py: the analyzer-class
get_method_code variant (infer_analyzer.py lines 294-333,
batch_infer_analyzer.py lines 74-113; the two bodies are identical) -/

/-- The backward scan `for i in range(start_line, -1, -1)` looking for the
nearest line at or before index `i` containing the method name. -/
def backFind (lines : List String) (name : String) : Nat → Option Nat
  | 0 => if strContains (lines.getD 0 "") name then some 0 else none
  | i + 1 =>
    if strContains (lines.getD (i + 1) "") name then some (i + 1)
    else backFind lines name i

/-- The bounded forward collection loop of the analyzer-class
`get_method_code` (lines 321-328 of infer_analyzer.py): lines are collected
from the declaration up to the exclusive bound `bound`, stopping early when
the running brace balance returns to zero after the declaration line. -/
def collectAux (s bound : Nat) : List String → Nat → Int → List String
  | [], _, _ => []
  | l :: rest, i, bal =>
    if bound ≤ i then []
    else
      let b := bal + braceBal l
      if b = 0 ∧ s < i then [l] else l :: collectAux s bound rest (i + 1) b

/-- Embedding of the analyzer-class `get_method_code`: backward scan from
`max(0, line_number - 1)` for the declaration, forward collection bounded by
`min(len(lines), line_number + 20)`. `none` models the error strings (file
missing, method not found, or the `IndexError` raised when the start index
falls outside the file and caught by the blanket `except`). -/
def analyzer_get_method_code (fileExists : Bool) (lines : List String)
    (method_name : String) (line_number : Nat) : Option (List String) :=
  if fileExists = false then none
  else
    let start0 := line_number - 1
    if lines.length ≤ start0 then none
    else
      match backFind lines method_name start0 with
      | none => none
      | some s =>
        let bound := min lines.length (line_number + 20)
        some (collectAux s bound (lines.drop s) s 0)

/-! ## MethodLocator as the specification states it (claim C3) -/

/-- Modelled from the spec: the `locate` algorithm exactly as the
specification words it — start from the reported line clamped to file bounds,
scan backward to the nearest preceding line containing the simple name
(`none` when no such line exists up to the top of the file), then scan
forward accumulating a running brace balance, the end line being the first
line strictly after the declaration at which the balance returns to zero.
The specification names no outcome for a balance that never returns to zero;
`none` is used there (the comparison theorems do not exercise that case).
Returns the 1-based `(start_line, end_line)` pair. -/
def locateSpec (lines : List String) (name : String) (line : Nat) :
    Option (Nat × Nat) :=
  if lines.isEmpty then none
  else
    let i0 := min (line - 1) (lines.length - 1)
    match backFind lines name i0 with
    | none => none
    | some s =>
      match findEndAux s (lines.drop s) s 0 with
      | none => none
      | some e => some (s + 1, e + 1)

/-! ## infer_analyzer.py: InferAnalyzer.run_infer (lines 143-268) -/

/-- The oracle environment for one `run_infer` call. The per-attempt
functions model what the file system and the subprocesses do on the i-th
iteration of the two bounded retry loops. -/
structure InferEnv where
  projectExists : Bool
  chmodRaises : Bool
  inferOutExists0 : Bool
  cleanupRaises : Nat → Bool
  cleanupExistsAfter : Nat → Bool
  pomExists : Bool
  gradleExists : Bool
  buildReturncode : Int
  inferOutExistsAfterBuild : Bool
  reportExists0 : Bool
  reportGenRaises : Nat → Bool
  reportExistsAfterGen : Nat → Bool

/-- State of the stale-artifact cleanup loop (infer_analyzer.py lines
160-190): whether `infer-out` currently exists, whether the loop broke out
after a successful deletion, whether it returned the fatal cleanup error,
and how many deletion attempts were actually made. -/
structure CleanSt where
  present : Bool
  broke : Bool
  failed : Bool
  attempts : Nat
deriving DecidableEq

/-- One iteration of `for attempt in range(3)` of the cleanup loop: if
`infer-out` does not exist the body is skipped; otherwise the deletion is
attempted, an exception on `attempt == 2` returns the fatal error, and a
verified deletion breaks out of the loop. `raises i` tells whether the i-th
attempt raises, `after i` whether `infer-out` still exists after it. -/
def cleanStep (raises after : Nat → Bool) (st : CleanSt) (i : Nat) : CleanSt :=
  if st.broke || st.failed then st
  else if st.present then
    if raises i then
      if i = 2 then
        { present := after i, broke := false, failed := true,
          attempts := st.attempts + 1 }
      else
        { present := after i, broke := false, failed := false,
          attempts := st.attempts + 1 }
    else if after i then
      { present := true, broke := false, failed := false,
        attempts := st.attempts + 1 }
    else
      { present := false, broke := true, failed := false,
        attempts := st.attempts + 1 }
  else st

/-- The whole cleanup loop, `for attempt in range(3)`. -/
def cleanupPhase (env : InferEnv) : CleanSt :=
  [0, 1, 2].foldl (cleanStep env.cleanupRaises env.cleanupExistsAfter)
    ⟨env.inferOutExists0, false, false, 0⟩

/-- State of the report-regeneration loop (infer_analyzer.py lines
243-256): whether `report.json` currently exists, whether the loop broke out
after a successful generation, whether it returned the fatal report error,
and how many `infer report` invocations were made. -/
structure RepSt where
  present : Bool
  broke : Bool
  failed : Bool
  gens : Nat
deriving DecidableEq

/-- One iteration of the report loop: the body is skipped when the report
already exists (note: skipped, not broken out of); a `CalledProcessError` on
`attempt == 2` returns the fatal error; a generation that exits cleanly
breaks out only if the file now actually exists. -/
def repStep (raises after : Nat → Bool) (st : RepSt) (i : Nat) : RepSt :=
  if st.broke || st.failed then st
  else if st.present then st
  else if raises i then
    if i = 2 then { st with failed := true, gens := st.gens + 1 }
    else { st with gens := st.gens + 1 }
  else
    { present := after i, broke := after i, failed := false,
      gens := st.gens + 1 }

/-- The whole report-regeneration loop, `for attempt in range(3)`. -/
def reportPhase (env : InferEnv) : RepSt :=
  [0, 1, 2].foldl (repStep env.reportGenRaises env.reportExistsAfterGen)
    ⟨env.reportExists0, false, false, 0⟩

/-- The build system selected by `run_infer` (lines 201-212): `pom.xml`
first, then `build.gradle`. -/
inductive BuildTool where
  | maven : BuildTool
  | gradle : BuildTool
deriving DecidableEq

/-- The distinct outcomes of `run_infer`, one per `return False` site plus
the final `return True`. -/
inductive RunResult where
  | ok : RunResult
  | errProjectMissing : RunResult
  | errPermission : RunResult
  | errCleanup : RunResult
  | errNoBuildFile : RunResult
  | errCaptureFailed : RunResult
  | errReport : RunResult
deriving DecidableEq

/-- What a `run_infer` call observably did: its outcome, which build command
(if any) it dispatched, whether the non-zero-exit warning was printed, and
whether control reached the `infer-out` existence check after the build. -/
structure RunObs where
  result : RunResult
  dispatched : Option BuildTool
  buildWarned : Bool
  artifactChecked : Bool
deriving DecidableEq

/-- Embedding of `InferAnalyzer.run_infer`. The `.global.tenv` cleanup
(lines 192-199) and the runstate-file creation (lines 232-241) swallow their
own exceptions and do not influence the outcome, so they are not modelled.
The build exit code (line 222) only selects whether the warning is printed;
execution then falls through to the `infer-out` check in either case. -/
def run_infer (env : InferEnv) : RunObs :=
  if env.projectExists = false then ⟨.errProjectMissing, none, false, false⟩
  else if env.chmodRaises then ⟨.errPermission, none, false, false⟩
  else if (cleanupPhase env).failed then ⟨.errCleanup, none, false, false⟩
  else
    match (if env.pomExists then some BuildTool.maven
           else if env.gradleExists then some BuildTool.gradle
           else none) with
    | none => ⟨.errNoBuildFile, none, false, false⟩
    | some tool =>
      let warned := decide (env.buildReturncode ≠ 0)
      if env.inferOutExistsAfterBuild = false then
        ⟨.errCaptureFailed, some tool, warned, true⟩
      else if (reportPhase env).failed then
        ⟨.errReport, some tool, warned, true⟩
      else ⟨.ok, some tool, warned, true⟩

/-! ## batch_infer_analyzer.py: BatchInferAnalyzer.analyze_project
(lines 115-204) -/

/-- Oracle environment for one `analyze_project` call. -/
structure BatchEnv where
  gradlewExists : Bool
  gradleRaises : Bool
  gradleReturncode : Int
  pomExists : Bool
  mavenRaises : Bool
  mavenReturncode : Int
deriving DecidableEq

/-- The outcome dictionary of `analyze_project`, one constructor per
`return` site that can be reached. -/
inductive BatchResult where
  | success : BatchResult
  | errGradleBuild : BatchResult
  | errMavenBuild : BatchResult
  | errMavenException : BatchResult
  | errNoBuildFile : BatchResult
  | errOuterException : BatchResult
deriving DecidableEq

/-- The `status` field of the outcome dictionary. -/
def batch_status : BatchResult → String
  | .success => "success"
  | _ => "error"

/-- Embedding of `BatchInferAnalyzer.analyze_project`: the Gradle branch is
entered when `gradlew` exists and returns an error outcome on any non-zero
exit; a successful Gradle run falls through to the Maven branch, whose
`else` reports the missing-build-file error. The final `return success`
at lines 193-197 of the source is unreachable. -/
def analyze_project (env : BatchEnv) : BatchResult :=
  if env.gradlewExists then
    if env.gradleRaises then .errOuterException
    else if env.gradleReturncode ≠ 0 then .errGradleBuild
    else if env.pomExists then
      if env.mavenRaises then .errMavenException
      else if env.mavenReturncode ≠ 0 then .errMavenBuild
      else .success
    else .errNoBuildFile
  else if env.pomExists then
    if env.mavenRaises then .errMavenException
    else if env.mavenReturncode ≠ 0 then .errMavenBuild
    else .success
  else .errNoBuildFile

/-! ## batch_infer_analyzer.py: detect_java_version (lines 206-243) -/

/-- Python `\s` (ASCII range): space, tab, newline, carriage return,
vertical tab, form feed. -/
def wsChar (c : Char) : Bool :=
  c = Char.ofNat 32 || c = Char.ofNat 9 || c = Char.ofNat 10 ||
  c = Char.ofNat 13 || c = Char.ofNat 11 || c = Char.ofNat 12

/-- Attempt of the regex `key\s*=\s*['"]?(\d+)['"]?` at the start of `l`,
returning the captured digit group. A quote not followed by a digit fails
here just as the regex does after backtracking, since the digit class cannot
match the quote character. -/
def matchGradleKeyAt (key : List Char) (l : List Char) : Option (List Char) :=
  if l.take key.length = key then
    match (l.drop key.length).dropWhile wsChar with
    | c :: r2 =>
      if c = Char.ofNat 61 then
        let r3 := r2.dropWhile wsChar
        let r4 := match r3 with
          | d :: rest => if d = squote || d = dquote then rest else r3
          | [] => r3
        let ds := r4.takeWhile Char.isDigit
        if ds.isEmpty then none else some ds
      else none
    | [] => none
  else none

/-- Attempt of the regex `<tag>(\d+)</tag>` at the start of `l`. The greedy
`\d+` is maximal-munch here because the closing tag starts with a non-digit. -/
def matchMavenAt (openT closeT : List Char) (l : List Char) :
    Option (List Char) :=
  if l.take openT.length = openT then
    let r := l.drop openT.length
    let ds := r.takeWhile Char.isDigit
    if ds.isEmpty then none
    else if (r.drop ds.length).take closeT.length = closeT then some ds
    else none
  else none

/-- `re.search`: try the pattern at each position from the left and return
the first successful match. -/
def reSearch (m : List Char → Option (List Char)) : List Char → Option (List Char)
  | [] => m []
  | c :: rest =>
    match m (c :: rest) with
    | some ds => some ds
    | none => reSearch m rest

/-- One guarded Gradle-key search of `detect_java_version` (lines 215-222):
the substring guard `key in content` followed by the regex search. -/
def gradleKeySearch (key content : String) : Option String :=
  if containsSub key.toList content.toList then
    (reSearch (matchGradleKeyAt key.toList) content.toList).map
      (fun ds => String.mk ds)
  else none

/-- One guarded Maven-tag search of `detect_java_version` (lines 230-237). -/
def mavenTagSearch (guardKey openT closeT content : String) : Option String :=
  if containsSub guardKey.toList content.toList then
    (reSearch (matchMavenAt openT.toList closeT.toList) content.toList).map
      (fun ds => String.mk ds)
  else none

/-- State of one build-descriptor file as `detect_java_version` sees it:
absent, readable with the given text, or raising on read (the blanket
`except` then returns the default). -/
inductive FileState where
  | absent : FileState
  | unreadable : FileState
  | readable (content : String) : FileState

/-- The `sourceCompatibility` search applied to the `build.gradle` state. -/
def searchGradleSource : FileState → Option String
  | .readable s => gradleKeySearch "sourceCompatibility" s
  | _ => none

/-- The `targetCompatibility` search applied to the `build.gradle` state. -/
def searchGradleTarget : FileState → Option String
  | .readable s => gradleKeySearch "targetCompatibility" s
  | _ => none

/-- The `maven.compiler.source` search applied to the `pom.xml` state. -/
def searchMavenSource : FileState → Option String
  | .readable s =>
    mavenTagSearch "maven.compiler.source" "<maven.compiler.source>"
      "</maven.compiler.source>" s
  | _ => none

/-- The `maven.compiler.target` search applied to the `pom.xml` state. -/
def searchMavenTarget : FileState → Option String
  | .readable s =>
    mavenTagSearch "maven.compiler.target" "<maven.compiler.target>"
      "</maven.compiler.target>" s
  | _ => none

/-- Embedding of `BatchInferAnalyzer.detect_java_version`: `build.gradle`
keys first, then `pom.xml` tags, default `"21"`; a read that raises is
caught by the blanket `except` and yields `"21"` immediately. The function
is total: it never fails with an error. -/
def detect_java_version (gradle pom : FileState) : String :=
  match gradle with
  | .unreadable => "21"
  | g =>
    match searchGradleSource g with
    | some v => v
    | none =>
      match searchGradleTarget g with
      | some v => v
      | none =>
        match pom with
        | .unreadable => "21"
        | p =>
          match searchMavenSource p with
          | some v => v
          | none => (searchMavenTarget p).getD "21"

/-! ## batch_infer_analyzer.py: find_java_projects (lines 31-72) -/

/-- A directory path as a list of components relative to the scan root. The
embedding assumes the scan root is passed as an absolute path, so the walked
root strings coincide with the absolute paths used in the prefix checks. -/
abbrev DirPath := List String

/-- The path string of a directory, as Python builds it by joining
components with `/` below the base string (character-list model). -/
def pathChars (base : List Char) (p : DirPath) : List Char :=
  p.foldl (fun s c => s ++ slash :: c.toList) base

/-- The Android exclusion `"android" in root.lower()` (line 43). -/
def hasAndroid (base : List Char) (p : DirPath) : Bool :=
  containsSub "android".toList ((pathChars base p).map Char.toLower)

/-- The climbing loop of `find_java_projects` (lines 55-62), fuelled by the
path length: while the parent directory holds a build descriptor, move to
the parent; stop at the base directory. -/
def climbAux (desc : DirPath → Bool) : Nat → DirPath → DirPath
  | 0, p => p
  | fuel + 1, p =>
    if p.isEmpty then p
    else if desc p.dropLast then climbAux desc fuel p.dropLast else p

/-- The topmost ancestor (with a contiguous descriptor chain) of a found
project directory. -/
def climb (desc : DirPath → Bool) (p : DirPath) : DirPath :=
  climbAux desc p.length p

/-- One iteration of the walk loop of `find_java_projects`: skip Android
paths, require a build descriptor, skip descendants of already-processed
paths via the string `startswith` check, then climb and register the
topmost directory if it is new. -/
def fjpStep (desc : DirPath → Bool) (base : List Char) (acc : List DirPath)
    (root : DirPath) : List DirPath :=
  if hasAndroid base root then acc
  else if desc root then
    if acc.any (fun q => strLead (pathChars base q) (pathChars base root)) then
      acc
    else if climb desc root ∈ acc then acc
    else acc ++ [climb desc root]
  else acc

/-- Embedding of `BatchInferAnalyzer.find_java_projects`: `walk` is the list
of directories yielded by `os.walk` in top-down order, `desc p` tells
whether directory `p` holds `build.gradle` or `pom.xml`. -/
def find_java_projects (desc : DirPath → Bool) (base : List Char)
    (walk : List DirPath) : List DirPath :=
  walk.foldl (fjpStep desc base) []

/-- Path `q` lies at or below path `p` (component-wise). -/
def ancestorOf (p q : DirPath) : Prop := ∃ r, q = p ++ r

/-! ## generate_bug_report.py: process_all_projects (lines 226-269) -/

/-- A file-system operation performed by `process_all_projects`, in program
order. -/
inductive FsOp where
  | rmtreeOut : FsOp
  | mkdirOut : FsOp
  | convert (project : String) : FsOp
  | writeAllBugs : FsOp
deriving DecidableEq

/-- The sequence of operations `process_all_projects` performs on the output
directory: delete it when it exists, recreate it, convert each project in
turn, and write the combined file when any bugs were collected. -/
def process_all_projects_ops (outExists : Bool) (projects : List String)
    (allBugsNonempty : Bool) : List FsOp :=
  (if outExists then [FsOp.rmtreeOut] else []) ++ [FsOp.mkdirOut] ++
    projects.map FsOp.convert ++
    (if allBugsNonempty then [FsOp.writeAllBugs] else [])

/-- The contents of the output directory after `process_all_projects`:
the initial contents survive only when the directory did not pre-exist
(`shutil.rmtree` at line 234 otherwise empties it first), then each
conversion adds the files it wrote (`cr p = none` models a failed
conversion, which writes nothing that survives), then `all_bugs.json` when
any bugs were collected. -/
def process_all_projects_contents (outExists : Bool) (init : List String)
    (projects : List String) (cr : String → Option (List String))
    (allBugsNonempty : Bool) : List String :=
  (if outExists then [] else init) ++
    projects.foldl (fun acc p => acc ++ (cr p).getD []) [] ++
    (if allBugsNonempty then ["all_bugs.json"] else [])

/-! ## Spec-side helper definitions and concrete instances used by the
claim theorems, witnesses and counterexamples -/

/-- The cumulative per-line brace balance of a list of lines, starting
from zero. -/
def lineBalSum (ls : List String) : Int :=
  ls.foldl (fun b l => b + braceBal l) 0

/-- An `InferEnv` with the build exit code replaced: used to state that the
outcome of `run_infer` does not depend on the exit code. -/
def envWithBuild (env : InferEnv) (k : Int) : InferEnv :=
  { env with buildReturncode := k }

/-- A benign `run_infer` environment with a non-zero build exit code
(Maven project, clean artifacts, report already present). -/
def c1Env : InferEnv :=
  { projectExists := true, chmodRaises := false, inferOutExists0 := false,
    cleanupRaises := fun _ => false, cleanupExistsAfter := fun _ => false,
    pomExists := true, gradleExists := false, buildReturncode := 3,
    inferOutExistsAfterBuild := true, reportExists0 := true,
    reportGenRaises := fun _ => false, reportExistsAfterGen := fun _ => false }

/-- An environment where `infer-out` exists and every deletion attempt
silently leaves it in place without raising. -/
def c4Env : InferEnv :=
  { projectExists := true, chmodRaises := false, inferOutExists0 := true,
    cleanupRaises := fun _ => false, cleanupExistsAfter := fun _ => true,
    pomExists := true, gradleExists := false, buildReturncode := 0,
    inferOutExistsAfterBuild := true, reportExists0 := true,
    reportGenRaises := fun _ => false, reportExistsAfterGen := fun _ => false }

/-- An environment where the first deletion attempt succeeds. -/
def c4WEnv : InferEnv :=
  { projectExists := true, chmodRaises := false, inferOutExists0 := true,
    cleanupRaises := fun _ => false, cleanupExistsAfter := fun _ => false,
    pomExists := true, gradleExists := false, buildReturncode := 0,
    inferOutExistsAfterBuild := true, reportExists0 := true,
    reportGenRaises := fun _ => false, reportExistsAfterGen := fun _ => false }

/-- An environment where `report.json` never appears yet `infer report`
always exits cleanly. -/
def c5Env : InferEnv :=
  { projectExists := true, chmodRaises := false, inferOutExists0 := false,
    cleanupRaises := fun _ => false, cleanupExistsAfter := fun _ => false,
    pomExists := true, gradleExists := false, buildReturncode := 0,
    inferOutExistsAfterBuild := true, reportExists0 := false,
    reportGenRaises := fun _ => false, reportExistsAfterGen := fun _ => false }

/-- An environment where the first report generation succeeds. -/
def c5WEnv : InferEnv :=
  { projectExists := true, chmodRaises := false, inferOutExists0 := false,
    cleanupRaises := fun _ => false, cleanupExistsAfter := fun _ => false,
    pomExists := true, gradleExists := false, buildReturncode := 0,
    inferOutExistsAfterBuild := true, reportExists0 := false,
    reportGenRaises := fun _ => false, reportExistsAfterGen := fun _ => true }

/-- A benign Maven-only environment used to witness the dispatch lemmas. -/
def c7WEnv : InferEnv :=
  { projectExists := true, chmodRaises := false, inferOutExists0 := false,
    cleanupRaises := fun _ => false, cleanupExistsAfter := fun _ => false,
    pomExists := true, gradleExists := false, buildReturncode := 0,
    inferOutExistsAfterBuild := true, reportExists0 := true,
    reportGenRaises := fun _ => false, reportExistsAfterGen := fun _ => false }

/-- The walk used by the discovery witness: the base directory and one
child `a` that holds a build descriptor. -/
def c8Walk : List DirPath := [[], ["a"]]

/-- Descriptor predicate for the discovery witness. -/
def c8Desc : DirPath → Bool := fun p => decide (p = ["a"])

/-- Base path string for the discovery witness. -/
def c8Base : List Char := "/r".toList

/-! ## Helper lemmas about `pyMax` -/

theorem foldlMax_eq_or_mem (xs : List Nat) (a : Nat) :
    xs.foldl max a = a ∨ xs.foldl max a ∈ xs := by
  induction xs generalizing a with
  | nil => exact Or.inl rfl
  | cons x xs ih =>
    rw [List.foldl_cons]
    rcases ih (max a x) with h | h
    · rw [h]
      rcases max_choice a x with hm | hm
      · exact Or.inl hm
      · exact Or.inr (by rw [hm]; exact List.mem_cons_self x xs)
    · exact Or.inr (List.mem_cons_of_mem x h)

theorem le_foldlMax_init (xs : List Nat) (a : Nat) : a ≤ xs.foldl max a := by
  induction xs generalizing a with
  | nil => exact Nat.le_refl a
  | cons x xs ih => exact le_trans (le_max_left a x) (ih (max a x))

theorem le_foldlMax_of_mem {x : Nat} (xs : List Nat) (a : Nat) (hx : x ∈ xs) :
    x ≤ xs.foldl max a := by
  induction xs generalizing a with
  | nil => cases hx
  | cons y ys ih =>
    rw [List.foldl_cons]
    rcases List.mem_cons.mp hx with rfl | h
    · exact le_trans (le_max_right a x) (le_foldlMax_init ys _)
    · exact ih _ h

theorem pyMax_spec {l : List Nat} {m : Nat} (h : pyMax l = some m) :
    m ∈ l ∧ ∀ x ∈ l, x ≤ m := by
  cases l with
  | nil => cases h
  | cons x xs =>
    have hm : xs.foldl max x = m := by
      simpa [pyMax] using h
    subst hm
    refine ⟨?_, ?_⟩
    · rcases foldlMax_eq_or_mem xs x with h | h
      · rw [h]; exact List.mem_cons_self x xs
      · exact List.mem_cons_of_mem x h
    · intro y hy
      rcases List.mem_cons.mp hy with rfl | h
      · exact le_foldlMax_init xs y
      · exact le_foldlMax_of_mem xs x h

theorem pyMax_of_ne_nil {l : List Nat} (h : l ≠ []) : ∃ m, pyMax l = some m := by
  cases l with
  | nil => exact absurd rfl h
  | cons x xs => exact ⟨xs.foldl max x, rfl⟩

/-! ## Claim C2 -/

/-- C2 (amended): the `bug_end_line` computed by `convert_json_to_json` is
the maximum trace-entry line that is ≤ `method_end_line`, and it lies within
`[method_start_line, method_end_line]` whenever some trace entry is in range;
it equals `bug_start_line` when the trace is empty; but when the trace is
non-empty and every trace line exceeds `method_end_line`, the computation
raises (`none`) instead of falling back to `bug_start_line`. -/
theorem c2_amended :
    (∀ (bugStart mStart mEnd t : Nat) (ts : List Nat),
        t ∈ ts → mStart ≤ t → t ≤ mEnd →
        ∃ m, calcBugEnd bugStart ts mEnd = some m ∧ mStart ≤ m ∧ m ≤ mEnd ∧
          ∀ u ∈ ts, u ≤ mEnd → u ≤ m) ∧
    (∀ bugStart mEnd, calcBugEnd bugStart [] mEnd = some bugStart) ∧
    (∀ bugStart mEnd (ts : List Nat), ts ≠ [] → (∀ u ∈ ts, mEnd < u) →
        calcBugEnd bugStart ts mEnd = none) := by
  refine ⟨?_, ?_, ?_⟩
  · intro bugStart mStart mEnd t ts ht h1 h2
    cases ts with
    | nil => cases ht
    | cons a as =>
      simp only [calcBugEnd]
      have htf : t ∈ (a :: as).filter (fun x => decide (x ≤ mEnd)) :=
        List.mem_filter.mpr ⟨ht, by simpa using h2⟩
      have hne : (a :: as).filter (fun x => decide (x ≤ mEnd)) ≠ [] := by
        intro hnil
        rw [hnil] at htf
        cases htf
      obtain ⟨m, hm⟩ := pyMax_of_ne_nil hne
      obtain ⟨hmem, hub⟩ := pyMax_spec hm
      have hmf := List.mem_filter.mp hmem
      refine ⟨m, hm, Nat.le_trans h1 (hub t htf), by simpa using hmf.2, ?_⟩
      intro u hu hue
      exact hub u (List.mem_filter.mpr ⟨hu, by simpa using hue⟩)
  · intro bugStart mEnd
    rfl
  · intro bugStart mEnd ts hne hall
    cases ts with
    | nil => exact absurd rfl hne
    | cons a as =>
      simp only [calcBugEnd]
      have hf : (a :: as).filter (fun x => decide (x ≤ mEnd)) = [] := by
        rw [List.filter_eq_nil_iff]
        intro u hu
        simp only [decide_eq_true_eq]
        exact Nat.not_le.mpr (hall u hu)
      rw [hf]
      rfl

/-- C2 witness: a concrete in-range instance of the amended theorem. -/
theorem c2_witness :
    ∃ m, calcBugEnd 5 [4, 9] 10 = some m ∧ 3 ≤ m ∧ m ≤ 10 ∧
      ∀ u ∈ [4, 9], u ≤ 10 → u ≤ m :=
  c2_amended.1 5 3 10 4 [4, 9] (by decide) (by decide) (by decide)

/-- C2 counterexample: a finding whose non-empty trace lies entirely beyond
the method end does not get `bug_end_line = bug_start_line` as the claim
states; the `max()` call raises instead (`none`), and the whole project
conversion aborts producing no records. -/
theorem c2_counterexample :
    calcBugEnd 5 [50] 10 = none ∧
    convertBugs "p" (fun _ => some ["void foo() \x7b", "\x7d"])
      [⟨"A.java", "A.foo():void", 1, "NPE", "q", "ERROR", [(50, "d")]⟩] [] =
      none := by
  exact ⟨rfl, by decide⟩

/-! ## Claim C1 -/

/-- C1 (amended): in `InferAnalyzer.run_infer` a non-zero build exit code is
only a warning — the outcome, the dispatched command and the fact that the
capture-artifact check is reached are all independent of the exit code, and
whenever a build was dispatched the artifact check happens while the warning
fires exactly on a non-zero exit. In `BatchInferAnalyzer.analyze_project`,
however, a non-zero exit from the Gradle or Maven invocation immediately
produces an error outcome with no artifact check. -/
theorem c1_amended :
    (∀ (env : InferEnv) (k : Int),
        (run_infer (envWithBuild env k)).result = (run_infer env).result ∧
        (run_infer (envWithBuild env k)).dispatched = (run_infer env).dispatched ∧
        (run_infer (envWithBuild env k)).artifactChecked =
          (run_infer env).artifactChecked) ∧
    (∀ env : InferEnv, (run_infer env).dispatched.isSome = true →
        (run_infer env).artifactChecked = true ∧
        (run_infer env).buildWarned = decide (env.buildReturncode ≠ 0)) ∧
    (∀ e : BatchEnv, e.gradlewExists = true → e.gradleRaises = false →
        e.gradleReturncode ≠ 0 → analyze_project e = .errGradleBuild) ∧
    (∀ e : BatchEnv, e.gradlewExists = false → e.pomExists = true →
        e.mavenRaises = false → e.mavenReturncode ≠ 0 →
        analyze_project e = .errMavenBuild) := by
  refine ⟨?_, ?_, ?_, ?_⟩
  · intro env k
    obtain ⟨pe, cr, io0, clr, cla, pom, gra, brc, ioa, re0, rgr, rag⟩ := env
    by_cases h1 : pe = false <;>
    by_cases h2 : cr = true <;>
    by_cases h3 : (([0, 1, 2].foldl (cleanStep clr cla)
        ⟨io0, false, false, 0⟩).failed) = true <;>
    by_cases h4 : pom = true <;>
    by_cases h5 : gra = true <;>
    by_cases h6 : ioa = false <;>
    by_cases h7 : (([0, 1, 2].foldl (repStep rgr rag)
        ⟨re0, false, false, 0⟩).failed) = true <;>
    simp_all [run_infer, envWithBuild, cleanupPhase, reportPhase]
  · intro env
    obtain ⟨pe, cr, io0, clr, cla, pom, gra, brc, ioa, re0, rgr, rag⟩ := env
    by_cases h1 : pe = false <;>
    by_cases h2 : cr = true <;>
    by_cases h3 : (([0, 1, 2].foldl (cleanStep clr cla)
        ⟨io0, false, false, 0⟩).failed) = true <;>
    by_cases h4 : pom = true <;>
    by_cases h5 : gra = true <;>
    by_cases h6 : ioa = false <;>
    by_cases h7 : (([0, 1, 2].foldl (repStep rgr rag)
        ⟨re0, false, false, 0⟩).failed) = true <;>
    simp_all [run_infer, cleanupPhase, reportPhase]
  · intro e h1 h2 h3
    simp [analyze_project, h1, h2, h3]
  · intro e h1 h2 h3 h4
    simp [analyze_project, h1, h2, h3, h4]

/-- C1 witness: the amended theorem applied to a benign Maven environment
with exit code 3. -/
theorem c1_witness :
    (run_infer c1Env).artifactChecked = true ∧
    (run_infer c1Env).buildWarned = decide (c1Env.buildReturncode ≠ 0) :=
  c1_amended.2.1 c1Env (by decide)

/-- C1 counterexample: in `BatchInferAnalyzer.analyze_project` the very same
project run that succeeds with exit code 0 produces an error outcome when the
wrapped Maven build exits non-zero — the non-zero exit is fatal there, not a
warning, and no capture-artifact check follows. -/
theorem c1_counterexample :
    analyze_project ⟨false, false, 0, true, false, 0⟩ = .success ∧
    analyze_project ⟨false, false, 0, true, false, 1⟩ = .errMavenBuild ∧
    batch_status (analyze_project ⟨false, false, 0, true, false, 1⟩) =
      "error" := by
  refine ⟨by decide, by decide, by decide⟩

/-! ## Claim C4 -/

/-- C4 (amended): the stale-artifact cleanup makes at most 3 deletion
attempts; a cleanup that verifies deletion on the first or second attempt
performs no further attempts and is not an error; but if the directory still
exists after the 3rd attempt without an exception having been raised, the run
simply continues — the `could not clear stale artifacts` error outcome occurs
only when the cleanup body raises an exception on the 3rd attempt. -/
theorem c4_amended :
    (∀ env : InferEnv, (cleanupPhase env).attempts ≤ 3) ∧
    (∀ env : InferEnv, env.inferOutExists0 = true → env.cleanupRaises 0 = false →
        env.cleanupExistsAfter 0 = false →
        (cleanupPhase env).attempts = 1 ∧ (cleanupPhase env).failed = false) ∧
    (∀ env : InferEnv, env.inferOutExists0 = true → env.cleanupRaises 0 = false →
        env.cleanupExistsAfter 0 = true → env.cleanupRaises 1 = false →
        env.cleanupExistsAfter 1 = false →
        (cleanupPhase env).attempts = 2 ∧ (cleanupPhase env).failed = false) ∧
    (∀ env : InferEnv, (cleanupPhase env).failed = true →
        env.cleanupRaises 2 = true) := by
  refine ⟨?_, ?_, ?_, ?_⟩
  · intro env
    obtain ⟨pe, cr, io0, clr, cla, pom, gra, brc, ioa, re0, rgr, rag⟩ := env
    by_cases g0 : io0 = true <;>
    by_cases r0 : clr 0 = true <;>
    by_cases a0 : cla 0 = true <;>
    by_cases r1 : clr 1 = true <;>
    by_cases a1 : cla 1 = true <;>
    by_cases r2 : clr 2 = true <;>
    by_cases a2 : cla 2 = true <;>
    simp_all [cleanupPhase, cleanStep]
  · intro env h1 h2 h3
    obtain ⟨pe, cr, io0, clr, cla, pom, gra, brc, ioa, re0, rgr, rag⟩ := env
    simp_all [cleanupPhase, cleanStep]
  · intro env h1 h2 h3 h4 h5
    obtain ⟨pe, cr, io0, clr, cla, pom, gra, brc, ioa, re0, rgr, rag⟩ := env
    simp_all [cleanupPhase, cleanStep]
  · intro env
    obtain ⟨pe, cr, io0, clr, cla, pom, gra, brc, ioa, re0, rgr, rag⟩ := env
    by_cases g0 : io0 = true <;>
    by_cases r0 : clr 0 = true <;>
    by_cases a0 : cla 0 = true <;>
    by_cases r1 : clr 1 = true <;>
    by_cases a1 : cla 1 = true <;>
    by_cases r2 : clr 2 = true <;>
    by_cases a2 : cla 2 = true <;>
    simp_all [cleanupPhase, cleanStep]

/-- C4 witness: a cleanup succeeding on the first attempt stops after one
attempt and is not an error. -/
theorem c4_witness :
    (cleanupPhase c4WEnv).attempts = 1 ∧ (cleanupPhase c4WEnv).failed = false :=
  c4_amended.2.1 c4WEnv rfl rfl rfl

/-- C4 counterexample: when `shutil.rmtree(..., ignore_errors=True)` never
raises but the directory silently survives all 3 attempts, the run does not
transition to an error — it continues all the way to success, refuting the
claim that a directory still existing after the 3rd attempt yields an error
outcome. -/
theorem c4_counterexample :
    (cleanupPhase c4Env).present = true ∧
    (cleanupPhase c4Env).attempts = 3 ∧
    (cleanupPhase c4Env).failed = false ∧
    (run_infer c4Env).result = .ok := by
  refine ⟨by decide, by decide, by decide, by decide⟩

/-! ## Claim C5 -/

/-- C5 (amended): report generation is invoked at most 3 times and a
generation whose file check succeeds on the first attempt stops there; but a
run whose report file is still absent after the 3rd attempt is fatal only
when the generation command itself raised on the 3rd attempt — if every
`infer report` invocation exits cleanly while the file never appears, the run
returns success. -/
theorem c5_amended :
    (∀ env : InferEnv, (reportPhase env).gens ≤ 3) ∧
    (∀ env : InferEnv, env.reportExists0 = false →
        env.reportGenRaises 0 = false → env.reportExistsAfterGen 0 = true →
        (reportPhase env).gens = 1 ∧ (reportPhase env).failed = false) ∧
    (∀ env : InferEnv, (reportPhase env).failed = true →
        env.reportGenRaises 2 = true) := by
  refine ⟨?_, ?_, ?_⟩
  · intro env
    obtain ⟨pe, cr, io0, clr, cla, pom, gra, brc, ioa, re0, rgr, rag⟩ := env
    by_cases g0 : re0 = true <;>
    by_cases r0 : rgr 0 = true <;>
    by_cases a0 : rag 0 = true <;>
    by_cases r1 : rgr 1 = true <;>
    by_cases a1 : rag 1 = true <;>
    by_cases r2 : rgr 2 = true <;>
    by_cases a2 : rag 2 = true <;>
    simp_all [reportPhase, repStep]
  · intro env h1 h2 h3
    obtain ⟨pe, cr, io0, clr, cla, pom, gra, brc, ioa, re0, rgr, rag⟩ := env
    simp_all [reportPhase, repStep]
  · intro env
    obtain ⟨pe, cr, io0, clr, cla, pom, gra, brc, ioa, re0, rgr, rag⟩ := env
    by_cases g0 : re0 = true <;>
    by_cases r0 : rgr 0 = true <;>
    by_cases a0 : rag 0 = true <;>
    by_cases r1 : rgr 1 = true <;>
    by_cases a1 : rag 1 = true <;>
    by_cases r2 : rgr 2 = true <;>
    by_cases a2 : rag 2 = true <;>
    simp_all [reportPhase, repStep]

/-- C5 witness: a report generated and verified on the first attempt stops
after one generation and is not an error. -/
theorem c5_witness :
    (reportPhase c5WEnv).gens = 1 ∧ (reportPhase c5WEnv).failed = false :=
  c5_amended.2.1 c5WEnv rfl rfl rfl

/-- C5 counterexample: `infer report` exits cleanly three times yet
`report.json` never appears; the report is still absent after the 3rd
attempt, but `run_infer` returns success, refuting the claim that persistent
absence after 3 attempts is fatal. -/
theorem c5_counterexample :
    (reportPhase c5Env).present = false ∧
    (reportPhase c5Env).gens = 3 ∧
    (run_infer c5Env).result = .ok := by
  refine ⟨by decide, by decide, by decide⟩

/-! ## Claim C7 -/

/-- C7 (amended): in `InferAnalyzer.run_infer` the missing-descriptor error
occurs exactly when neither `pom.xml` nor `build.gradle` is present, and a
project with exactly one recognized build system gets that system's command
dispatched. In `BatchInferAnalyzer.analyze_project`, however, the Gradle
entry point is the `gradlew` wrapper, and a Gradle-only project whose build
succeeds still falls through to the Maven check and is reported with the
missing-build-file error when `pom.xml` is absent. -/
theorem c7_amended :
    (∀ env : InferEnv, env.projectExists = true → env.chmodRaises = false →
        (cleanupPhase env).failed = false →
        ((run_infer env).result = .errNoBuildFile ↔
          (env.pomExists = false ∧ env.gradleExists = false))) ∧
    (∀ env : InferEnv, env.projectExists = true → env.chmodRaises = false →
        (cleanupPhase env).failed = false → env.pomExists = true →
        (run_infer env).dispatched = some .maven) ∧
    (∀ env : InferEnv, env.projectExists = true → env.chmodRaises = false →
        (cleanupPhase env).failed = false → env.pomExists = false →
        env.gradleExists = true → (run_infer env).dispatched = some .gradle) ∧
    (∀ e : BatchEnv, e.gradlewExists = false → e.pomExists = false →
        analyze_project e = .errNoBuildFile) := by
  refine ⟨?_, ?_, ?_, ?_⟩
  · intro env h1 h2 h3
    obtain ⟨pe, cr, io0, clr, cla, pom, gra, brc, ioa, re0, rgr, rag⟩ := env
    by_cases h4 : pom = true <;>
    by_cases h5 : gra = true <;>
    by_cases h6 : ioa = false <;>
    by_cases h7 : (([0, 1, 2].foldl (repStep rgr rag)
        ⟨re0, false, false, 0⟩).failed) = true <;>
    simp_all [run_infer, cleanupPhase, reportPhase]
  · intro env h1 h2 h3 h4
    obtain ⟨pe, cr, io0, clr, cla, pom, gra, brc, ioa, re0, rgr, rag⟩ := env
    by_cases h6 : ioa = false <;>
    by_cases h7 : (([0, 1, 2].foldl (repStep rgr rag)
        ⟨re0, false, false, 0⟩).failed) = true <;>
    simp_all [run_infer, cleanupPhase, reportPhase]
  · intro env h1 h2 h3 h4 h5
    obtain ⟨pe, cr, io0, clr, cla, pom, gra, brc, ioa, re0, rgr, rag⟩ := env
    by_cases h6 : ioa = false <;>
    by_cases h7 : (([0, 1, 2].foldl (repStep rgr rag)
        ⟨re0, false, false, 0⟩).failed) = true <;>
    simp_all [run_infer, cleanupPhase, reportPhase]
  · intro e h1 h2
    simp [analyze_project, h1, h2]

/-- C7 witness: a Maven-only project dispatches the Maven command. -/
theorem c7_witness : (run_infer c7WEnv).dispatched = some .maven :=
  c7_amended.2.1 c7WEnv rfl rfl (by decide) rfl

/-- C7 counterexample: a project holding only the Gradle entry point
(`gradlew` present, `pom.xml` absent) whose Gradle build succeeds is still
reported with the missing-build-file error by `analyze_project` — refuting
both directions of the claimed equivalence for this code path. -/
theorem c7_counterexample :
    analyze_project ⟨true, false, 0, false, false, 0⟩ = .errNoBuildFile ∧
    batch_status (analyze_project ⟨true, false, 0, false, false, 0⟩) =
      "error" := by
  refine ⟨by decide, by decide⟩

/-! ## Claim C9 -/

/-- C9: `detect_java_version` searches, in order, the Gradle
`sourceCompatibility` assignment, the Gradle `targetCompatibility`
assignment, the Maven compiler-source element and the Maven compiler-target
element, returning the first numeric match; when no pattern matches, or the
descriptor being read is unreadable, it returns the fixed default `"21"`
(the function is total, so it never raises). -/
theorem c9_theorem :
    (∀ (g p : FileState) (v : String), searchGradleSource g = some v →
        detect_java_version g p = v) ∧
    (∀ (g p : FileState) (v : String), g ≠ .unreadable →
        searchGradleSource g = none → searchGradleTarget g = some v →
        detect_java_version g p = v) ∧
    (∀ (g p : FileState) (v : String), g ≠ .unreadable →
        searchGradleSource g = none → searchGradleTarget g = none →
        searchMavenSource p = some v → detect_java_version g p = v) ∧
    (∀ (g p : FileState) (v : String), g ≠ .unreadable →
        searchGradleSource g = none → searchGradleTarget g = none →
        searchMavenSource p = none → searchMavenTarget p = some v →
        detect_java_version g p = v) ∧
    (∀ g p : FileState, searchGradleSource g = none →
        searchGradleTarget g = none → searchMavenSource p = none →
        searchMavenTarget p = none → detect_java_version g p = "21") ∧
    (∀ p : FileState, detect_java_version .unreadable p = "21") ∧
    (∀ g : FileState, g ≠ .unreadable →
        searchGradleSource g = none → searchGradleTarget g = none →
        detect_java_version g .unreadable = "21") := by
  refine ⟨?_, ?_, ?_, ?_, ?_, ?_, ?_⟩
  · intro g p v h
    cases g <;> simp_all [detect_java_version, searchGradleSource]
  · intro g p v hg h1 h2
    cases g <;> cases p <;>
      simp_all [detect_java_version, searchGradleTarget]
  · intro g p v hg h1 h2 h3
    cases g <;> cases p <;>
      simp_all [detect_java_version, searchMavenSource]
  · intro g p v hg h1 h2 h3 h4
    cases g <;> cases p <;>
      simp_all [detect_java_version, searchMavenTarget]
  · intro g p h1 h2 h3 h4
    cases g <;> cases p <;> simp_all [detect_java_version]
  · intro p
    rfl
  · intro g hg h1 h2
    cases g <;> simp_all [detect_java_version]

/-- C9 witness: a Gradle descriptor declaring `sourceCompatibility = 17`
resolves to `"17"`, and the spec scenario — a Maven-only project whose
`pom.xml` holds no compiler keys — resolves to the default `"21"`. -/
theorem c9_witness :
    detect_java_version (.readable "sourceCompatibility = 17") .absent =
      "17" ∧
    detect_java_version .absent (.readable "<project></project>") = "21" :=
  ⟨c9_theorem.1 (.readable "sourceCompatibility = 17") .absent "17"
      (by decide),
    c9_theorem.2.2.2.2.1 .absent (.readable "<project></project>")
      (by decide) (by decide) (by decide) (by decide)⟩

/-! ## Claim C10 -/

theorem mem_foldlAppend {cr : String → Option (List String)} :
    ∀ (ps : List String) (acc : List String) (f : String),
      f ∈ ps.foldl (fun a p => a ++ (cr p).getD []) acc →
      f ∈ acc ∨ ∃ p ∈ ps, f ∈ (cr p).getD [] := by
  intro ps
  induction ps with
  | nil => intro acc f h; exact Or.inl h
  | cons p ps ih =>
    intro acc f h
    rcases ih (acc ++ (cr p).getD []) f h with h2 | ⟨q, hq, hf⟩
    · rcases List.mem_append.mp h2 with h3 | h3
      · exact Or.inl h3
      · exact Or.inr ⟨p, List.mem_cons_self p ps, h3⟩
    · exact Or.inr ⟨q, List.mem_cons_of_mem p hq, hf⟩

/-- C10: when the output directory already exists, `process_all_projects`
deletes it recursively before any project is converted (the deletion is
literally the first file-system operation), so the final contents of the
output directory are independent of its previous contents and consist only
of artifacts written by the current run. -/
theorem c10_theorem :
    (∀ (init : List String) (ps : List String)
        (cr : String → Option (List String)) (ab : Bool),
        process_all_projects_contents true init ps cr ab =
          process_all_projects_contents true [] ps cr ab) ∧
    (∀ (init : List String) (ps : List String)
        (cr : String → Option (List String)) (ab : Bool) (f : String),
        f ∈ process_all_projects_contents true init ps cr ab →
        (∃ p ∈ ps, f ∈ (cr p).getD []) ∨ f = "all_bugs.json") ∧
    (∀ (ps : List String) (ab : Bool), ∃ rest,
        process_all_projects_ops true ps ab = FsOp.rmtreeOut :: rest) := by
  refine ⟨?_, ?_, ?_⟩
  · intro init ps cr ab
    rfl
  · intro init ps cr ab f h
    simp only [process_all_projects_contents, if_pos rfl] at h
    rcases List.mem_append.mp h with h1 | h1
    · rcases List.mem_append.mp h1 with h2 | h2
      · cases h2
      · rcases mem_foldlAppend ps [] f h2 with h3 | h3
        · cases h3
        · exact Or.inl h3
    · rcases ab with _ | _
      · cases h1
      · simp at h1
        exact Or.inr h1
  · intro ps ab
    exact ⟨[FsOp.mkdirOut] ++ ps.map FsOp.convert ++
      (if ab then [FsOp.writeAllBugs] else []), rfl⟩

/-- C10 witness: stale content `junk.json` disappears and only the current
run's artifact can be in the final contents. -/
theorem c10_witness :
    (∃ p ∈ ["p1"],
        "p1_bugs.json" ∈ ((fun _ => some ["p1_bugs.json"] :
          String → Option (List String)) p).getD []) ∨
      "p1_bugs.json" = "all_bugs.json" :=
  c10_theorem.2.1 ["junk.json"] ["p1"] (fun _ => some ["p1_bugs.json"]) true
    "p1_bugs.json" (by decide)

/-! ## Claim C6 -/

/-- C6 (amended): `get_method_code` returns the out-of-range error exactly
when the 1-based reported line is below the 0-based declaration index or
above the 0-based end index — the check is off by one against the returned
1-based `[method_start_line, method_end_line]` range — and the extractor
skips any finding whose locate result is not a success, continuing with the
remaining findings. -/
theorem c6_amended :
    (∀ (lines : List String) (name : String) (bugLine s : Nat),
        findDeclFrom name lines 0 = some s →
        (get_method_code true lines name bugLine =
            .bugLineOutside bugLine s (gbrEndIdx lines s) ↔
          (bugLine < s ∨ gbrEndIdx lines s < bugLine))) ∧
    (∀ (pn : String) (fs : String → Option (List String)) (b : Finding)
        (rest : List Finding) (acc : List BugRecord),
        (∀ info, locateFinding fs b ≠ .found info) →
        convertBugs pn fs (b :: rest) acc = convertBugs pn fs rest acc) := by
  constructor
  · intro lines name bugLine s h
    by_cases hc : bugLine < s ∨ gbrEndIdx lines s < bugLine
    · simp [get_method_code, h, hc]
    · simp [get_method_code, h, hc]
  · intro pn fs b rest acc h
    by_cases ht : containsSub "test".toList (strLower b.file) = true
    · simp [convertBugs, ht]
    · cases hl : locateFinding fs b with
      | found info => exact absurd hl (h info)
      | fileNotFound => simp [convertBugs, ht, hl]
      | methodNotFound => simp [convertBugs, ht, hl]
      | bugLineOutside a b1 c => simp [convertBugs, ht, hl]

/-- C6 witness: a finding whose file cannot be read is skipped and the
extraction continues with the remaining findings unchanged. -/
theorem c6_witness :
    convertBugs "p" (fun _ => none)
      [⟨"B.java", "B.bar():void", 1, "T", "q", "s", []⟩] [] =
      convertBugs "p" (fun _ => none) [] [] :=
  c6_amended.2 "p" (fun _ => none)
    ⟨"B.java", "B.bar():void", 1, "T", "q", "s", []⟩ [] []
    (by
      intro info h
      have he : locateFinding (fun _ => none)
          (⟨"B.java", "B.bar():void", 1, "T", "q", "s", []⟩ : Finding) =
          GbrResult.fileNotFound := by decide
      rw [he] at h
      exact GbrResult.noConfusion h)

/-- C6 counterexample: a finding whose reported line 1 lies outside the
located method's 1-based range `[2, 3]` is not rejected — `get_method_code`
returns a success record for it (the bounds check compares the 1-based line
against 0-based indices), refuting the claim that every out-of-range
reported line yields NotFound. -/
theorem c6_counterexample :
    get_method_code true ["a", "foo() \x7b", "\x7d"] "foo" 1 =
      .found ⟨["foo() \x7b", "\x7d"], 2, 3, 1⟩ ∧ (1 : Nat) < 2 :=
  ⟨by decide, by decide⟩

/-! ## Helper lemmas about line-balance sums and the scanning loops -/

theorem foldl_braceBal (ls : List String) :
    ∀ a : Int, ls.foldl (fun b l => b + braceBal l) a = a + lineBalSum ls := by
  induction ls with
  | nil => intro a; simp [lineBalSum]
  | cons l ls ih =>
    intro a
    have h2 : lineBalSum (l :: ls) = braceBal l + lineBalSum ls := by
      simp only [lineBalSum, List.foldl_cons]
      rw [ih (0 + braceBal l), ih 0]
      omega
    simp only [List.foldl_cons]
    rw [ih (a + braceBal l), h2]
    omega

theorem lineBalSum_cons (l : String) (ls : List String) :
    lineBalSum (l :: ls) = braceBal l + lineBalSum ls := by
  simp only [lineBalSum, List.foldl_cons]
  rw [foldl_braceBal ls (0 + braceBal l), foldl_braceBal ls 0]
  omega

theorem findEndAux_spec :
    ∀ (l : List String) (i : Nat) (bal : Int) (s e : Nat),
      findEndAux s l i bal = some e →
      s < e ∧ i ≤ e ∧ e - i < l.length ∧
      bal + lineBalSum (l.take (e - i + 1)) = 0 ∧
      ∀ j, i ≤ j → j < e → s < j →
        bal + lineBalSum (l.take (j - i + 1)) ≠ 0 := by
  intro l
  induction l with
  | nil => intro i bal s e h; cases h
  | cons hd tl ih =>
    intro i bal s e h
    simp only [findEndAux] at h
    by_cases hc : bal + braceBal hd = 0 ∧ s < i
    · rw [if_pos hc] at h
      injection h with he
      subst he
      refine ⟨hc.2, Nat.le_refl i, by simp, ?_, ?_⟩
      · have h0 := hc.1
        simp [Nat.sub_self, lineBalSum_cons, lineBalSum]
        omega
      · intro j h1 h2 h3
        omega
    · rw [if_neg hc] at h
      obtain ⟨hse, hie, hlen, hbal, hleast⟩ := ih (i + 1) (bal + braceBal hd) s e h
      have hie' : i ≤ e := Nat.le_of_succ_le hie
      refine ⟨hse, hie', ?_, ?_, ?_⟩
      · simp only [List.length_cons]
        omega
      · have hk : e - i + 1 = (e - (i + 1) + 1) + 1 := by omega
        rw [hk, List.take_succ_cons, lineBalSum_cons]
        omega
      · intro j h1 h2 h3
        by_cases hj : j = i
        · subst hj
          have hb : bal + braceBal hd ≠ 0 := fun hb0 => hc ⟨hb0, h3⟩
          have hk : j - j + 1 = 1 := by omega
          rw [hk]
          simp [lineBalSum_cons, lineBalSum]
          omega
        · have hij : i + 1 ≤ j := by omega
          have hne := hleast j hij h2 h3
          have hk : j - i + 1 = (j - (i + 1) + 1) + 1 := by omega
          rw [hk, List.take_succ_cons, lineBalSum_cons]
          omega

theorem findDeclFrom_spec :
    ∀ (l : List String) (i s : Nat) (name : String),
      findDeclFrom name l i = some s →
      i ≤ s ∧ s - i < l.length ∧
      (strContains (l.getD (s - i) "") name &&
        strContains (l.getD (s - i) "") "(") = true ∧
      ∀ j, j < s - i →
        (strContains (l.getD j "") name &&
          strContains (l.getD j "") "(") = false := by
  intro l
  induction l with
  | nil => intro i s name h; cases h
  | cons hd tl ih =>
    intro i s name h
    simp only [findDeclFrom] at h
    by_cases hc : (strContains hd name && strContains hd "(") = true
    · rw [if_pos hc] at h
      injection h with he
      subst he
      refine ⟨Nat.le_refl i, by simp, by simpa [Nat.sub_self] using hc, ?_⟩
      intro j hj
      omega
    · rw [if_neg hc] at h
      obtain ⟨h1, h2, h3, h4⟩ := ih (i + 1) s name h
      refine ⟨by omega, ?_, ?_, ?_⟩
      · simp only [List.length_cons]
        omega
      · have hk : s - i = (s - (i + 1)) + 1 := by omega
        rw [hk]
        simpa using h3
      · intro j hj
        have hk : s - i = (s - (i + 1)) + 1 := by omega
        rw [hk] at hj
        cases j with
        | zero => simpa using hc
        | succ j' =>
          simp only [List.getD_cons_succ]
          exact h4 j' (by omega)

theorem backFind_spec :
    ∀ (i0 : Nat) (lines : List String) (name : String) (s : Nat),
      backFind lines name i0 = some s →
      s ≤ i0 ∧ strContains (lines.getD s "") name = true ∧
      ∀ j, s < j → j ≤ i0 → strContains (lines.getD j "") name = false := by
  intro i0
  induction i0 with
  | zero =>
    intro lines name s h
    simp only [backFind] at h
    by_cases hc : strContains (lines.getD 0 "") name = true
    · rw [if_pos hc] at h
      injection h with he
      subst he
      exact ⟨Nat.le_refl 0, hc, fun j h1 h2 => by omega⟩
    · rw [if_neg hc] at h
      cases h
  | succ i0 ih =>
    intro lines name s h
    simp only [backFind] at h
    by_cases hc : strContains (lines.getD (i0 + 1) "") name = true
    · rw [if_pos hc] at h
      injection h with he
      subst he
      exact ⟨Nat.le_refl _, hc, fun j h1 h2 => by omega⟩
    · rw [if_neg hc] at h
      obtain ⟨h1, h2, h3⟩ := ih lines name s h
      refine ⟨by omega, h2, ?_⟩
      intro j hj1 hj2
      by_cases hj : j = i0 + 1
      · subst hj
        simpa using hc
      · exact h3 j hj1 (by omega)

/-! ## Claim C3 -/

/-- C3 (amended): `generate_bug_report.get_method_code` locates the
declaration by scanning forward from the top of the file to the least index
whose line contains the simple name and a parenthesis (not backward from the
reported line), and its end index is the first index strictly after the
declaration at which the running brace balance returns to zero, staying at
the declaration index when the balance never returns to zero; the
analyzer-class variants do scan backward, from the clamped reported index,
to the greatest index at or below it whose line contains the name. -/
theorem c3_amended :
    (∀ (lines : List String) (name : String) (s : Nat),
        findDeclFrom name lines 0 = some s →
        s < lines.length ∧
        (strContains (lines.getD s "") name &&
          strContains (lines.getD s "") "(") = true ∧
        ∀ j, j < s →
          (strContains (lines.getD j "") name &&
            strContains (lines.getD j "") "(") = false) ∧
    (∀ (lines : List String) (s e : Nat),
        findEndAux s (lines.drop s) s 0 = some e →
        gbrEndIdx lines s = e ∧ s < e ∧ e < lines.length ∧
        lineBalSum ((lines.drop s).take (e - s + 1)) = 0 ∧
        ∀ j, s < j → j < e →
          lineBalSum ((lines.drop s).take (j - s + 1)) ≠ 0) ∧
    (∀ (lines : List String) (s : Nat),
        findEndAux s (lines.drop s) s 0 = none → gbrEndIdx lines s = s) ∧
    (∀ (lines : List String) (name : String) (i0 s : Nat),
        backFind lines name i0 = some s →
        s ≤ i0 ∧ strContains (lines.getD s "") name = true ∧
        ∀ j, s < j → j ≤ i0 →
          strContains (lines.getD j "") name = false) := by
  refine ⟨?_, ?_, ?_, ?_⟩
  · intro lines name s h
    obtain ⟨h1, h2, h3, h4⟩ := findDeclFrom_spec lines 0 s name h
    simp only [Nat.sub_zero] at h2 h3 h4
    exact ⟨h2, h3, h4⟩
  · intro lines s e h
    obtain ⟨h1, h2, h3, h4, h5⟩ := findEndAux_spec (lines.drop s) s 0 s e h
    refine ⟨by simp [gbrEndIdx, h], h1, ?_, ?_, ?_⟩
    · have hd : (lines.drop s).length = lines.length - s :=
        List.length_drop s lines
      omega
    · simpa using h4
    · intro j hj1 hj2
      have hne := h5 j (by omega) hj2 hj1
      simpa using hne
  · intro lines s h
    simp [gbrEndIdx, h]
  · intro lines name i0 s h
    exact backFind_spec i0 lines name s h

/-- C3 witness: a file whose brace balance never returns to zero keeps the
end index at the declaration index. -/
theorem c3_witness : gbrEndIdx ["\x7b"] 0 = 0 :=
  c3_amended.2.2.1 ["\x7b"] 0 (by decide)

/-- C3 counterexample: on the file `["a", "foo() {", "}"]` with reported
line 1, the algorithm the claim states (backward scan from the clamped
reported line, NotFound when no preceding line holds the name) yields
NotFound, but `generate_bug_report.get_method_code` — scanning forward from
the top of the file — finds the declaration on the later line 2 and returns
a success record, so the code does not implement the claimed algorithm. -/
theorem c3_counterexample :
    locateSpec ["a", "foo() \x7b", "\x7d"] "foo" 1 = none ∧
    get_method_code true ["a", "foo() \x7b", "\x7d"] "foo" 1 =
      .found ⟨["foo() \x7b", "\x7d"], 2, 3, 1⟩ :=
  ⟨by decide, by decide⟩

/-! ## Helper lemmas about prefixes, substrings and paths (claim C8) -/

theorem strLead_refl : ∀ a : List Char, strLead a a = true := by
  intro a
  induction a with
  | nil => rfl
  | cons x xs ih => simp [strLead, ih]

theorem strLead_self_append : ∀ (a k : List Char), strLead a (a ++ k) = true := by
  intro a k
  induction a with
  | nil => rfl
  | cons x xs ih => simp [strLead, ih]

theorem strLead_append_right :
    ∀ (a b k : List Char), strLead a b = true → strLead a (b ++ k) = true := by
  intro a
  induction a with
  | nil => intro b k h; rfl
  | cons x xs ih =>
    intro b k h
    cases b with
    | nil => simp [strLead] at h
    | cons y ys =>
      simp only [strLead, Bool.and_eq_true] at h
      simp only [List.cons_append, strLead, Bool.and_eq_true]
      exact ⟨h.1, ih ys k h.2⟩

theorem strLead_trans :
    ∀ (a b c : List Char), strLead a b = true → strLead b c = true →
      strLead a c = true := by
  intro a
  induction a with
  | nil => intro b c h1 h2; rfl
  | cons x xs ih =>
    intro b c h1 h2
    cases b with
    | nil => simp [strLead] at h1
    | cons y ys =>
      cases c with
      | nil => simp [strLead] at h2
      | cons z zs =>
        simp only [strLead, Bool.and_eq_true] at h1 h2 ⊢
        obtain ⟨hxy, h1'⟩ := h1
        obtain ⟨hyz, h2'⟩ := h2
        have hxy' : x = y := eq_of_beq hxy
        subst hxy'
        exact ⟨hyz, ih ys zs h1' h2'⟩

theorem containsSub_nil : ∀ h : List Char, containsSub [] h = true := by
  intro h
  induction h with
  | nil => rfl
  | cons c rest ih => simp [containsSub, strLead]

theorem containsSub_append_right :
    ∀ (n h k : List Char), containsSub n h = true →
      containsSub n (h ++ k) = true := by
  intro n h
  induction h with
  | nil =>
    intro k hh
    have hn : n = [] := by simpa [containsSub, List.isEmpty_iff] using hh
    subst hn
    exact containsSub_nil k
  | cons c rest ih =>
    intro k hh
    simp only [containsSub, Bool.or_eq_true] at hh
    simp only [List.cons_append, containsSub, Bool.or_eq_true]
    rcases hh with h1 | h1
    · exact Or.inl (strLead_append_right n (c :: rest) k h1)
    · exact Or.inr (ih k h1)

theorem pathChars_append (base : List Char) (p r : DirPath) :
    pathChars base (p ++ r) = pathChars (pathChars base p) r := by
  simp [pathChars, List.foldl_append]

theorem pathChars_extend :
    ∀ (r : DirPath) (s : List Char), ∃ t, pathChars s r = s ++ t := by
  intro r
  induction r with
  | nil => intro s; exact ⟨[], by simp [pathChars]⟩
  | cons c r ih =>
    intro s
    obtain ⟨t, ht⟩ := ih (s ++ slash :: c.toList)
    refine ⟨(slash :: c.toList) ++ t, ?_⟩
    show pathChars s (c :: r) = s ++ ((slash :: c.toList) ++ t)
    have h0 : pathChars s (c :: r) = pathChars (s ++ slash :: c.toList) r := rfl
    rw [h0, ht, List.append_assoc]

theorem ancestor_strLead (base : List Char) {p q : DirPath}
    (h : ancestorOf p q) :
    strLead (pathChars base p) (pathChars base q) = true := by
  obtain ⟨r, rfl⟩ := h
  rw [pathChars_append]
  obtain ⟨t, ht⟩ := pathChars_extend r (pathChars base p)
  rw [ht]
  exact strLead_self_append _ _

theorem hasAndroid_mono (base : List Char) {p q : DirPath}
    (h : ancestorOf p q) (hp : hasAndroid base p = true) :
    hasAndroid base q = true := by
  obtain ⟨r, rfl⟩ := h
  simp only [hasAndroid] at hp ⊢
  rw [pathChars_append]
  obtain ⟨t, ht⟩ := pathChars_extend r (pathChars base p)
  rw [ht, List.map_append]
  exact containsSub_append_right _ _ _ hp

theorem ancestorOf_refl (p : DirPath) : ancestorOf p p := ⟨[], by simp⟩

theorem ancestorOf_trans {p q r : DirPath} (h1 : ancestorOf p q)
    (h2 : ancestorOf q r) : ancestorOf p r := by
  obtain ⟨a, rfl⟩ := h1
  obtain ⟨b, rfl⟩ := h2
  exact ⟨a ++ b, by simp⟩

theorem dropLast_ancestor : ∀ p : DirPath, ancestorOf p.dropLast p := by
  intro p
  induction p with
  | nil => exact ⟨[], rfl⟩
  | cons x xs ih =>
    cases xs with
    | nil => exact ⟨[x], rfl⟩
    | cons y ys =>
      obtain ⟨r, hr⟩ := ih
      refine ⟨r, ?_⟩
      rw [List.dropLast_cons₂, List.cons_append, ← hr]

/-! ## Helper lemmas about the climbing loop (claim C8) -/

theorem climbAux_ancestor (desc : DirPath → Bool) :
    ∀ (fuel : Nat) (p : DirPath), ancestorOf (climbAux desc fuel p) p := by
  intro fuel
  induction fuel with
  | zero => intro p; exact ancestorOf_refl p
  | succ fuel ih =>
    intro p
    simp only [climbAux]
    by_cases h1 : p.isEmpty = true
    · rw [if_pos h1]; exact ancestorOf_refl p
    · rw [if_neg h1]
      by_cases h2 : desc p.dropLast = true
      · rw [if_pos h2]
        exact ancestorOf_trans (ih p.dropLast) (dropLast_ancestor p)
      · rw [if_neg h2]; exact ancestorOf_refl p

theorem climb_ancestor (desc : DirPath → Bool) (p : DirPath) :
    ancestorOf (climb desc p) p :=
  climbAux_ancestor desc p.length p

theorem climbAux_desc (desc : DirPath → Bool) :
    ∀ (fuel : Nat) (p : DirPath), desc p = true →
      desc (climbAux desc fuel p) = true := by
  intro fuel
  induction fuel with
  | zero => intro p h; exact h
  | succ fuel ih =>
    intro p h
    simp only [climbAux]
    by_cases h1 : p.isEmpty = true
    · rw [if_pos h1]; exact h
    · rw [if_neg h1]
      by_cases h2 : desc p.dropLast = true
      · rw [if_pos h2]; exact ih p.dropLast h2
      · rw [if_neg h2]; exact h

theorem climb_desc (desc : DirPath → Bool) (p : DirPath) (h : desc p = true) :
    desc (climb desc p) = true :=
  climbAux_desc desc p.length p h

theorem climbAux_fixed (desc : DirPath → Bool) :
    ∀ (fuel : Nat) (p : DirPath), p.length ≤ fuel →
      (climbAux desc fuel p).isEmpty = true ∨
        desc (climbAux desc fuel p).dropLast = false := by
  intro fuel
  induction fuel with
  | zero =>
    intro p hp
    have hn : p = [] := List.length_eq_zero.mp (Nat.le_zero.mp hp)
    subst hn
    exact Or.inl rfl
  | succ fuel ih =>
    intro p hp
    simp only [climbAux]
    by_cases h1 : p.isEmpty = true
    · rw [if_pos h1]; exact Or.inl h1
    · rw [if_neg h1]
      by_cases h2 : desc p.dropLast = true
      · rw [if_pos h2]
        apply ih
        have hne : p ≠ [] := fun hh => h1 (by simp [hh])
        have hpos : 0 < p.length := List.length_pos.mpr hne
        have hdl : p.dropLast.length = p.length - 1 := List.length_dropLast p
        omega
      · rw [if_neg h2]
        exact Or.inr (by simpa using h2)

theorem climb_fixed (desc : DirPath → Bool) (p : DirPath) :
    (climb desc p).isEmpty = true ∨ desc (climb desc p).dropLast = false :=
  climbAux_fixed desc p.length p (Nat.le_refl _)

theorem climb_idem (desc : DirPath → Bool) (p : DirPath) :
    climb desc (climb desc p) = climb desc p := by
  rcases climb_fixed desc p with h | h
  · have hn : climb desc p = [] := List.isEmpty_iff.mp h
    rw [hn]
    rfl
  · cases hr : climb desc p with
    | nil => rfl
    | cons x xs =>
      rw [hr] at h
      show climbAux desc (x :: xs).length (x :: xs) = x :: xs
      simp only [List.length_cons, climbAux]
      rw [if_neg (by simp), if_neg (by simp [h])]

/-! ## Claim C8: the discovery invariant -/

theorem fjpStep_mem (desc : DirPath → Bool) (base : List Char)
    {acc : List DirPath} {x root : DirPath} (hx : x ∈ acc) :
    x ∈ fjpStep desc base acc root := by
  unfold fjpStep
  split_ifs <;> first | exact hx | exact List.mem_append_left _ hx

theorem foldl_fjp_mem (desc : DirPath → Bool) (base : List Char) :
    ∀ (l : List DirPath) (acc : List DirPath) (x : DirPath), x ∈ acc →
      x ∈ l.foldl (fjpStep desc base) acc := by
  intro l
  induction l with
  | nil => intro acc x h; exact h
  | cons r l ih => intro acc x h; exact ih _ x (fjpStep_mem desc base h)

theorem fjp_P_mono (desc : DirPath → Bool) (base : List Char) {t : DirPath} :
    ∀ (l : List DirPath) (acc : List DirPath),
      (t ∈ acc ∨ ∃ q ∈ acc,
        strLead (pathChars base q) (pathChars base t) = true) →
      (t ∈ l.foldl (fjpStep desc base) acc ∨
        ∃ q ∈ l.foldl (fjpStep desc base) acc,
          strLead (pathChars base q) (pathChars base t) = true) := by
  intro l acc h
  rcases h with h | ⟨q, hq, hs⟩
  · exact Or.inl (foldl_fjp_mem desc base l acc t h)
  · exact Or.inr ⟨q, foldl_fjp_mem desc base l acc q hq, hs⟩

theorem fjp_reached (desc : DirPath → Bool) (base : List Char) :
    ∀ (l : List DirPath) (acc : List DirPath) (t : DirPath),
      t ∈ l → desc t = true → climb desc t = t → hasAndroid base t = false →
      (t ∈ l.foldl (fjpStep desc base) acc ∨
        ∃ q ∈ l.foldl (fjpStep desc base) acc,
          strLead (pathChars base q) (pathChars base t) = true) := by
  intro l
  induction l with
  | nil => intro acc t ht; cases ht
  | cons r l ih =>
    intro acc t ht hd hcl ha
    simp only [List.foldl_cons]
    rcases List.mem_cons.mp ht with rfl | ht'
    · apply fjp_P_mono
      unfold fjpStep
      rw [if_neg (by simp [ha]), if_pos hd]
      by_cases hany : acc.any
          (fun q => strLead (pathChars base q) (pathChars base t)) = true
      · rw [if_pos hany]
        obtain ⟨q, hq, hs⟩ := List.any_eq_true.mp hany
        exact Or.inr ⟨q, hq, hs⟩
      · rw [if_neg hany, hcl]
        by_cases hm : t ∈ acc
        · rw [if_pos hm]; exact Or.inl hm
        · rw [if_neg hm]
          exact Or.inl (List.mem_append_right _ (List.mem_singleton.mpr rfl))
    · exact ih (fjpStep desc base acc r) t ht' hd hcl ha

theorem mem_split_of_ancestor {done todo : List DirPath} {d t : DirPath}
    (hw : (done ++ d :: todo).Pairwise (fun a b => ancestorOf b a → b = a))
    (hmem : t ∈ done ++ d :: todo) (hanc : ancestorOf t d) :
    t ∈ done ∨ t = d := by
  rcases List.mem_append.mp hmem with h | h
  · exact Or.inl h
  · rcases List.mem_cons.mp h with rfl | h'
    · exact Or.inr rfl
    · have hp := (List.pairwise_append.mp hw).2.1
      have hr := (List.pairwise_cons.mp hp).1 t h'
      exact Or.inr (hr hanc)

theorem fjp_main (desc : DirPath → Bool) (base : List Char) :
    ∀ (todo done acc : List DirPath),
      (done ++ todo).Pairwise (fun a b => ancestorOf b a → b = a) →
      (∀ q ∈ done ++ todo, ∀ p : DirPath, ancestorOf p q → p ∈ done ++ todo) →
      (∀ p ∈ acc, desc p = true ∧ climb desc p = p) →
      (∀ p q : DirPath, p ∈ acc → q ∈ acc → ancestorOf p q → p = q) →
      (∀ p ∈ acc, p ∈ done) →
      (∀ t ∈ done, desc t = true → climb desc t = t →
        hasAndroid base t = false →
        t ∈ acc ∨ ∃ q ∈ acc,
          strLead (pathChars base q) (pathChars base t) = true) →
      acc.Nodup →
      (∀ p q : DirPath, p ∈ todo.foldl (fjpStep desc base) acc →
        q ∈ todo.foldl (fjpStep desc base) acc → ancestorOf p q → p = q) ∧
      (todo.foldl (fjpStep desc base) acc).Nodup := by
  intro todo
  induction todo with
  | nil =>
    intro done acc hw hcl h1 h2 h3 h4 hnd
    exact ⟨h2, hnd⟩
  | cons d todo ih =>
    intro done acc hw hcl h1 h2 h3 h4 hnd
    have hsplit : done ++ d :: todo = (done ++ [d]) ++ todo := by simp
    simp only [List.foldl_cons]
    by_cases ha : hasAndroid base d = true
    · have hstep : fjpStep desc base acc d = acc := by
        unfold fjpStep; rw [if_pos ha]
      rw [hstep]
      refine ih (done ++ [d]) acc (hsplit ▸ hw) (hsplit ▸ hcl) h1 h2 ?_ ?_ hnd
      · intro p hp; exact List.mem_append_left _ (h3 p hp)
      · intro t htm hdt hct hat
        rcases List.mem_append.mp htm with h | h
        · exact h4 t h hdt hct hat
        · have hte : t = d := List.mem_singleton.mp h
          subst hte
          rw [hat] at ha
          cases ha
    · by_cases hd : desc d = true
      · by_cases hany : acc.any
            (fun q => strLead (pathChars base q) (pathChars base d)) = true
        · have hstep : fjpStep desc base acc d = acc := by
            unfold fjpStep; rw [if_neg ha, if_pos hd, if_pos hany]
          rw [hstep]
          refine ih (done ++ [d]) acc (hsplit ▸ hw) (hsplit ▸ hcl) h1 h2 ?_ ?_ hnd
          · intro p hp; exact List.mem_append_left _ (h3 p hp)
          · intro t htm hdt hct hat
            rcases List.mem_append.mp htm with h | h
            · exact h4 t h hdt hct hat
            · have hte : t = d := List.mem_singleton.mp h
              subst hte
              obtain ⟨q, hq, hs⟩ := List.any_eq_true.mp hany
              exact Or.inr ⟨q, hq, hs⟩
        · by_cases hm : climb desc d ∈ acc
          · have hstep : fjpStep desc base acc d = acc := by
              unfold fjpStep; rw [if_neg ha, if_pos hd, if_neg hany, if_pos hm]
            rw [hstep]
            refine ih (done ++ [d]) acc (hsplit ▸ hw) (hsplit ▸ hcl) h1 h2
              ?_ ?_ hnd
            · intro p hp; exact List.mem_append_left _ (h3 p hp)
            · intro t htm hdt hct hat
              rcases List.mem_append.mp htm with h | h
              · exact h4 t h hdt hct hat
              · have hte : t = d := List.mem_singleton.mp h
                subst hte
                rw [hct] at hm
                exact Or.inl hm
          · -- the append branch
            have hstep : fjpStep desc base acc d = acc ++ [climb desc d] := by
              unfold fjpStep; rw [if_neg ha, if_pos hd, if_neg hany, if_neg hm]
            rw [hstep]
            have hanc0 : ancestorOf (climb desc d) d := climb_ancestor desc d
            have hdt0 : desc (climb desc d) = true := climb_desc desc d hd
            have hidem : climb desc (climb desc d) = climb desc d :=
              climb_idem desc d
            have hand0 : hasAndroid base (climb desc d) = false := by
              cases hx : hasAndroid base (climb desc d) with
              | false => rfl
              | true => exact absurd (hasAndroid_mono base hanc0 hx) ha
            have ht0walk : climb desc d ∈ done ++ d :: todo :=
              hcl d (by simp) (climb desc d) hanc0
            have ht0dd : climb desc d ∈ done ∨ climb desc d = d :=
              mem_split_of_ancestor hw ht0walk hanc0
            have hnolead : ∀ q ∈ acc,
                strLead (pathChars base q) (pathChars base d) = false := by
              intro q hq
              cases hx : strLead (pathChars base q) (pathChars base d) with
              | false => rfl
              | true => exact absurd (List.any_eq_true.mpr ⟨q, hq, hx⟩) hany
            refine ih (done ++ [d]) (acc ++ [climb desc d]) (hsplit ▸ hw)
              (hsplit ▸ hcl) ?_ ?_ ?_ ?_ ?_
            · -- h1: descriptor and climb-fixedness
              intro p hp
              rcases List.mem_append.mp hp with h | h
              · exact h1 p h
              · have hpe : p = climb desc d := List.mem_singleton.mp h
                subst hpe
                exact ⟨hdt0, hidem⟩
            · -- h2: pairwise non-ancestor
              intro p q hp hq hanc
              rcases List.mem_append.mp hp with hp' | hp' <;>
                rcases List.mem_append.mp hq with hq' | hq'
              · exact h2 p q hp' hq' hanc
              · have hqe : q = climb desc d := List.mem_singleton.mp hq'
                subst hqe
                have hpd : ancestorOf p d := ancestorOf_trans hanc hanc0
                have hlead := ancestor_strLead base hpd
                rw [hnolead p hp'] at hlead
                cases hlead
              · have hpe : p = climb desc d := List.mem_singleton.mp hp'
                subst hpe
                rcases ht0dd with hin | heq
                · rcases h4 (climb desc d) hin hdt0 hidem hand0 with
                    h | ⟨q', hq'', hs⟩
                  · exact h2 (climb desc d) q h hq' hanc
                  · have hs2 := ancestor_strLead base hanc0
                    have hs3 := strLead_trans _ _ _ hs hs2
                    rw [hnolead q' hq''] at hs3
                    cases hs3
                · have hqdone : q ∈ done := h3 q hq'
                  have hpair := (List.pairwise_append.mp hw).2.2 q hqdone d
                    (List.mem_cons_self _ _)
                  rw [heq] at hanc
                  rw [heq]
                  exact hpair hanc
              · exact (List.mem_singleton.mp hp').trans
                  (List.mem_singleton.mp hq').symm
            · -- h3: registered paths were walked
              intro p hp
              rcases List.mem_append.mp hp with h | h
              · exact List.mem_append_left _ (h3 p h)
              · have hpe : p = climb desc d := List.mem_singleton.mp h
                subst hpe
                rcases ht0dd with h' | h'
                · exact List.mem_append_left _ h'
                · rw [h']
                  exact List.mem_append_right _ (List.mem_singleton.mpr rfl)
            · -- h4: processed walked dirs are covered
              intro t htm hdt hct hat
              rcases List.mem_append.mp htm with h | h
              · rcases h4 t h hdt hct hat with h' | ⟨q, hq, hs⟩
                · exact Or.inl (List.mem_append_left _ h')
                · exact Or.inr ⟨q, List.mem_append_left _ hq, hs⟩
              · have hte : t = d := List.mem_singleton.mp h
                subst hte
                exact Or.inl (List.mem_append_right _
                  (List.mem_singleton.mpr hct.symm))
            · -- Nodup
              refine List.Nodup.append hnd (by simp) ?_
              intro a ha1 ha2
              have hae : a = climb desc d := List.mem_singleton.mp ha2
              subst hae
              exact hm ha1
      · have hstep : fjpStep desc base acc d = acc := by
          unfold fjpStep; rw [if_neg ha, if_neg hd]
        rw [hstep]
        refine ih (done ++ [d]) acc (hsplit ▸ hw) (hsplit ▸ hcl) h1 h2 ?_ ?_ hnd
        · intro p hp; exact List.mem_append_left _ (h3 p hp)
        · intro t htm hdt hct hat
          rcases List.mem_append.mp htm with h | h
          · exact h4 t h hdt hct hat
          · have hte : t = d := List.mem_singleton.mp h
            subst hte
            exact absurd hdt hd

/-- C8: over any top-down walk (ancestors are walked before descendants and
every ancestor of a walked directory is itself walked), no two projects
returned by `find_java_projects` stand in a strict ancestor/descendant
relation — nested descriptor directories are collapsed into their topmost
ancestor holding a descriptor — and the returned list is deduplicated. -/
theorem c8_theorem (desc : DirPath → Bool) (base : List Char)
    (walk : List DirPath)
    (hw : walk.Pairwise (fun a b => ancestorOf b a → b = a))
    (hcl : ∀ q ∈ walk, ∀ p : DirPath, ancestorOf p q → p ∈ walk) :
    (∀ p q : DirPath, p ∈ find_java_projects desc base walk →
      q ∈ find_java_projects desc base walk → ancestorOf p q → p = q) ∧
    (find_java_projects desc base walk).Nodup := by
  have hmain := fjp_main desc base walk [] [] hw hcl
    (by intro p hp; cases hp) (by intro p q hp; cases hp)
    (by intro p hp; cases hp) (by intro t ht; cases ht) List.nodup_nil
  simpa [find_java_projects] using hmain

/-- C8 witness: a walk of the base directory and one descriptor-holding
child produces the single project `["a"]`, to which the theorem applies. -/
theorem c8_witness :
    find_java_projects c8Desc c8Base c8Walk = [["a"]] ∧
    (find_java_projects c8Desc c8Base c8Walk).Nodup ∧
    (["a"] : DirPath) = ["a"] := by
  have hw : c8Walk.Pairwise (fun a b => ancestorOf b a → b = a) := by
    refine List.pairwise_cons.mpr ⟨?_, List.pairwise_cons.mpr
      ⟨?_, List.Pairwise.nil⟩⟩
    · intro b hb hanc
      have hb' : b = ["a"] := by simpa using hb
      subst hb'
      obtain ⟨r, hr⟩ := hanc
      exact List.noConfusion hr
    · intro b hb
      cases hb
  have hcl : ∀ q ∈ c8Walk, ∀ p : DirPath, ancestorOf p q → p ∈ c8Walk := by
    intro q hq p hp
    have hq' : q = [] ∨ q = ["a"] := by simpa [c8Walk] using hq
    rcases hq' with rfl | rfl
    · obtain ⟨r, hr⟩ := hp
      cases p with
      | nil => simp [c8Walk]
      | cons x xs => exact List.noConfusion hr
    · obtain ⟨r, hr⟩ := hp
      cases p with
      | nil => simp [c8Walk]
      | cons x xs =>
        simp only [List.cons_append] at hr
        injection hr with h1 h2
        have hxs : xs = [] := (List.append_eq_nil.mp h2.symm).1
        subst hxs
        subst h1
        simp [c8Walk]
  have h := c8_theorem c8Desc c8Base c8Walk hw hcl
  exact ⟨by decide, h.2, h.1 ["a"] ["a"] (by decide) (by decide) ⟨[], rfl⟩⟩

end AutoInfer
